import Mathlib

/-!
Verification of the pi genetic-algorithm simulation (src/pi.py).

The Python program is embedded shallowly:
* `Animal` is a structure with the four fields the Python class stores;
* population state is a `List Animal`; the `World` methods become functions
  on such lists, keeping their source names;
* Python's `random` module is modelled by a deterministic oracle `Rng`
  (a stream of naturals plus a cursor); `random.randint(lo, hi)` consumes
  one draw and returns a value in `[lo, hi]`.  Quantifying over the oracle
  quantifies over all possible random outcomes;
* `Decimal` arithmetic is modelled exactly over `ℚ`: the reference constant
  `Decimal(3.141592653589793)` converts the binary64 float exactly, so `PI`
  below is the exact rational value of that float;
* Python 3's built-in `round` (nearest integer, ties to even) is `pyRound`.
-/

/-- MAX_INT from the source: 2147483647 = 2^31 - 1. -/
def MAX_INT : ℤ := 2147483647

/-- Reference value of pi used by the source: the exact rational value of the
binary64 float 3.141592653589793 (which `Decimal` preserves exactly). -/
def PI : ℚ := 7074237752028440 / 2 ^ 51

/-- Source `fitness`: absolute distance between an approximation and `PI`. -/
def fitness (pi_approx : ℚ) : ℚ := |PI - pi_approx|

/-- Python 3 built-in `round` on an exact rational: nearest integer,
ties go to the even integer. -/
def pyRound (q : ℚ) : ℤ :=
  if q - ⌊q⌋ < 1 / 2 then ⌊q⌋
  else if 1 / 2 < q - ⌊q⌋ then ⌊q⌋ + 1
  else if ⌊q⌋ % 2 = 0 then ⌊q⌋ else ⌊q⌋ + 1

/-- Oracle model of Python's `random` module: a stream of naturals and a
cursor recording how many draws have been consumed. -/
structure Rng where
  seq : ℕ → ℕ
  pos : ℕ

/-- `random.randint(lo, hi)`: an arbitrary value in `[lo, hi]` taken from the
oracle stream, advancing the cursor. -/
def randint (lo hi : ℤ) (r : Rng) : ℤ × Rng :=
  (lo + ((r.seq r.pos % (hi - lo + 1).toNat : ℕ) : ℤ), { r with pos := r.pos + 1 })

/-- One animal: the four attributes stored by the Python class `Animal`. -/
structure Animal where
  numerator : ℤ
  denominator : ℤ
  age : ℤ
  fitness : ℚ
deriving DecidableEq

/-- Python truthiness of an optional int argument: `None` and `0` are falsy,
every other integer (negatives included) is truthy.  This is the
`numerator if(numerator) else ...` test of `Animal.__init__`. -/
def truthy : Option ℤ → Bool
  | none => false
  | some n => n != 0

/-- `Animal.__init__(numerator, denominator)`: a falsy argument (absent or 0)
is replaced by `random.randint(1, MAX_INT)`; `fitness` is computed at
construction from the stored ratio. -/
def animal_init (num? den? : Option ℤ) (r : Rng) : Animal × Rng :=
  let n := if truthy num? then (num?.getD 0, r) else randint 1 MAX_INT r
  let d := if truthy den? then (den?.getD 0, n.2) else randint 1 MAX_INT n.2
  ({ numerator := n.1, denominator := d.1, age := 0,
     fitness := fitness ((n.1 : ℚ) / (d.1 : ℚ)) }, d.2)

/-- `Animal.get_pi`: the stored ratio as an exact rational. -/
def Animal.get_pi (a : Animal) : ℚ := (a.numerator : ℚ) / (a.denominator : ℚ)

/-- `World.sort_animals`: stable sort ascending by the `fitness` key. -/
def sort_animals (animals : List Animal) : List Animal :=
  animals.mergeSort (fun a b => decide (a.fitness ≤ b.fitness))

/-- `World.get_parents`: chunks the list two at a time and yields only the
complete pairs, dropping an odd final singleton. -/
def get_parents : List Animal → List (Animal × Animal)
  | a :: b :: rest => (a, b) :: get_parents rest
  | _ => []

/-- `World.new_child`: average the parents' numerators and denominators with
true (rational) division, flip one coin for the numerator and one for the
denominator to multiply by `(1 + mutation)` or `(1 - mutation)`, round each
result, and construct the child through `Animal.__init__`. -/
def new_child (father mother : Animal) (mutation : ℚ) (r : Rng) : Animal × Rng :=
  let num : ℚ := ((father.numerator : ℚ) + (mother.numerator : ℚ)) / 2
  let den : ℚ := ((father.denominator : ℚ) + (mother.denominator : ℚ)) / 2
  let c1 := randint 0 1 r
  let num2 := if c1.1 ≠ 0 then num * (1 + mutation) else num * (1 - mutation)
  let c2 := randint 0 1 c1.2
  let den2 := if c2.1 ≠ 0 then den * (1 + mutation) else den * (1 - mutation)
  animal_init (some (pyRound num2)) (some (pyRound den2)) c2.2

/-- The loop body of `World.reproduce_animals`: one child per parent pair,
threading the random oracle left to right. -/
def make_children : List (Animal × Animal) → ℚ → Rng → List Animal × Rng
  | [], _, r => ([], r)
  | p :: ps, mutation, r =>
    let c := new_child p.1 p.2 mutation r
    let rest := make_children ps mutation c.2
    (c.1 :: rest.1, rest.2)

/-- `World.reproduce_animals`: append one child per parent pair, then
re-sort by fitness. -/
def reproduce_animals (animals : List Animal) (mutation : ℚ) (r : Rng) :
    List Animal × Rng :=
  let cs := make_children (get_parents animals) mutation r
  (sort_animals (animals ++ cs.1), cs.2)

/-- `World.kill_old_animals`: keep exactly the animals with `age < age`
threshold. -/
def kill_old_animals (age : ℤ) (animals : List Animal) : List Animal :=
  animals.filter (fun i => decide (i.age < age))

/-- `World.age_animals`: increment every animal's age by 1. -/
def age_animals (animals : List Animal) : List Animal :=
  animals.map (fun animal => { animal with age := animal.age + 1 })

/-- `World.kill_weak_animals`: keep exactly the animals with
`fitness < max_dist`. -/
def kill_weak_animals (max_dist : ℚ) (animals : List Animal) : List Animal :=
  animals.filter (fun i => decide (i.fitness < max_dist))

/-- `World.kill_overcrowded`: when the population exceeds `max_pop`, keep only
the first `len // 2` animals of the current order (`round` of an int is the
int itself). -/
def kill_overcrowded (max_pop : ℕ) (animals : List Animal) : List Animal :=
  if animals.length > max_pop then animals.take (animals.length / 2) else animals

/-- The six named parameters of the source `Config` class. -/
structure Config where
  max_age : ℤ
  max_generations : ℕ
  max_population : ℕ
  initial_population : ℕ
  max_distance_from_pi : ℚ
  mutation_percentage : ℚ

/-- One iteration of the `__main__` while loop, in the source order:
kill_old_animals, kill_weak_animals, reproduce_animals, kill_overcrowded,
age_animals (the generation counter increment between the last two does not
touch the population). -/
def stepGeneration (config : Config) (w : List Animal × Rng) : List Animal × Rng :=
  let a1 := kill_old_animals config.max_age w.1
  let a2 := kill_weak_animals config.max_distance_from_pi a1
  let a3 := reproduce_animals a2 config.mutation_percentage w.2
  let a4 := kill_overcrowded config.max_population a3.1
  (age_animals a4, a3.2)

/-- The `__main__` while loop: starting from counter `generation`, repeat
`stepGeneration` while `generation < max_generations`. -/
def mainLoop (config : Config) (generation : ℕ) (w : List Animal × Rng) :
    List Animal × Rng :=
  if generation < config.max_generations then
    mainLoop config (generation + 1) (stepGeneration config w)
  else w
termination_by config.max_generations - generation
decreasing_by omega

/-- Spec-side child-numerator formula for claim C2, following the spec's words
literally: round the parents' average first, then perturb it, then round
again.  Compared against `new_child`, which rounds only once. -/
def specChildNumerator (fn mn : ℤ) (mutation : ℚ) (plus : Bool) : ℤ :=
  pyRound ((pyRound (((fn : ℚ) + (mn : ℚ)) / 2) : ℚ) *
    (if plus then 1 + mutation else 1 - mutation))

/-- Constant oracle used for concrete instances: every draw reads `n`. -/
def constRng (n : ℕ) : Rng := ⟨fun _ => n, 0⟩

/-- Any `randint lo hi` draw lies in `[lo, hi]` when `lo ≤ hi`. -/
theorem randint_le (lo hi : ℤ) (r : Rng) (h : lo ≤ hi) :
    lo ≤ (randint lo hi r).1 ∧ (randint lo hi r).1 ≤ hi := by
  unfold randint
  have hk : 0 < (hi - lo + 1).toNat := by omega
  have h1 := Nat.mod_lt (r.seq r.pos) hk
  have h2 : ((r.seq r.pos % (hi - lo + 1).toNat : ℕ) : ℤ) < ((hi - lo + 1).toNat : ℤ) := by
    exact_mod_cast h1
  have h3 : (0 : ℤ) ≤ ((r.seq r.pos % (hi - lo + 1).toNat : ℕ) : ℤ) := Int.ofNat_nonneg _
  constructor <;> simp only <;> omega

/-- Rounding a nonnegative rational gives a nonnegative integer. -/
theorem pyRound_nonneg (q : ℚ) (h : 0 ≤ q) : 0 ≤ pyRound q := by
  have hf : 0 ≤ ⌊q⌋ := Int.floor_nonneg.mpr h
  unfold pyRound
  split_ifs <;> omega

/-- The numerator stored by the constructor: the argument when truthy,
otherwise a fresh `randint 1 MAX_INT` draw. -/
theorem animal_init_numerator (num? den? : Option ℤ) (r : Rng) :
    (animal_init num? den? r).1.numerator =
      if truthy num? then num?.getD 0 else (randint 1 MAX_INT r).1 := by
  unfold animal_init
  split_ifs <;> rfl

/-- The denominator stored by the constructor: the argument when truthy,
otherwise a fresh draw from the oracle state left by the numerator step. -/
theorem animal_init_denominator (num? den? : Option ℤ) (r : Rng) :
    (animal_init num? den? r).1.denominator =
      if truthy den? then den?.getD 0
      else (randint 1 MAX_INT
        (if truthy num? then ((num?.getD 0 : ℤ), r) else randint 1 MAX_INT r).2).1 := by
  unfold animal_init
  split_ifs <;> rfl

/-- A nonnegative explicit numerator argument yields a stored numerator of at
least 1: a zero argument is falsy and replaced by a random draw. -/
theorem animal_init_numerator_bounds (v : ℤ) (den? : Option ℤ) (r : Rng) (hv : 0 ≤ v) :
    1 ≤ (animal_init (some v) den? r).1.numerator := by
  rw [animal_init_numerator]
  by_cases h : v = 0
  · subst h
    simp only [truthy, bne_self_eq_false, Bool.false_eq_true, if_false]
    exact (randint_le 1 MAX_INT r (by norm_num [MAX_INT])).1
  · simp only [truthy, if_pos (bne_iff_ne.mpr h), Option.getD_some]
    omega

/-- A nonnegative explicit denominator argument yields a stored denominator of
at least 1: a zero argument is falsy and replaced by a random draw. -/
theorem animal_init_denominator_bounds (num? : Option ℤ) (w : ℤ) (r : Rng) (hw : 0 ≤ w) :
    1 ≤ (animal_init num? (some w) r).1.denominator := by
  rw [animal_init_denominator]
  by_cases h : w = 0
  · subst h
    simp only [truthy, bne_self_eq_false, Bool.false_eq_true, if_false]
    exact (randint_le 1 MAX_INT _ (by norm_num [MAX_INT])).1
  · simp only [truthy, if_pos (bne_iff_ne.mpr h), Option.getD_some]
    omega

/-- Claim C4: `kill_old_animals` removes exactly the animals whose age reaches
the threshold: an animal is in the result iff it was present and its age is
strictly below `maxAge`. -/
theorem c4_kill_old_exact (maxAge : ℤ) (l : List Animal) (x : Animal) :
    x ∈ kill_old_animals maxAge l ↔ x ∈ l ∧ x.age < maxAge := by
  simp [kill_old_animals, List.mem_filter]

/-- Claim C5: `kill_weak_animals` removes exactly the animals whose fitness
reaches the threshold: an animal is in the result iff it was present and its
fitness is strictly below `maxDistance`. -/
theorem c5_kill_weak_exact (maxDistance : ℚ) (l : List Animal) (x : Animal) :
    x ∈ kill_weak_animals maxDistance l ↔ x ∈ l ∧ x.fitness < maxDistance := by
  simp [kill_weak_animals, List.mem_filter]

/-- An animal record with explicitly chosen fields, used for concrete
instances; its fitness key is the number given last. -/
def mkAnimal (n d a : ℤ) (f : ℚ) : Animal := ⟨n, d, a, f⟩

/-- Claim C9: `age_animals` increments every animal's age by exactly 1 and
changes nothing else: same length (nothing removed or added), same order, and
every animal keeps its numerator, denominator and fitness. -/
theorem c9_age_animals_frame (l : List Animal) :
    (age_animals l).length = l.length ∧
    ∀ (i : ℕ) (h : i < l.length) (h2 : i < (age_animals l).length),
      ((age_animals l).get ⟨i, h2⟩).age = (l.get ⟨i, h⟩).age + 1 ∧
      ((age_animals l).get ⟨i, h2⟩).numerator = (l.get ⟨i, h⟩).numerator ∧
      ((age_animals l).get ⟨i, h2⟩).denominator = (l.get ⟨i, h⟩).denominator ∧
      ((age_animals l).get ⟨i, h2⟩).fitness = (l.get ⟨i, h⟩).fitness := by
  refine ⟨by simp [age_animals], ?_⟩
  intro i h h2
  simp [age_animals, List.get_eq_getElem, List.getElem_map]

/-- Claim C9 witness: a concrete two-animal population, checked at index 1. -/
theorem c9_witness :
    (age_animals [mkAnimal 3 2 0 1, mkAnimal 5 4 7 2]).length = 2 ∧
    ((age_animals [mkAnimal 3 2 0 1, mkAnimal 5 4 7 2]).get
        ⟨1, by simp [age_animals]⟩).age =
      (([mkAnimal 3 2 0 1, mkAnimal 5 4 7 2].get ⟨1, by simp⟩) : Animal).age + 1 :=
  ⟨(c9_age_animals_frame [mkAnimal 3 2 0 1, mkAnimal 5 4 7 2]).1,
    ((c9_age_animals_frame [mkAnimal 3 2 0 1, mkAnimal 5 4 7 2]).2 1 (by simp)
      (by simp [age_animals])).1⟩

/-- Claim C7: every removal, reproduction and sort operation is a no-op on the
empty population (raising nothing, since all are total functions here), and
reproduction on a population with fewer than two animals produces no children:
the population is unchanged up to the final re-sort (a permutation). -/
theorem c7_empty_population_noop (maxAge : ℤ) (maxDistance : ℚ) (maxPop : ℕ)
    (mutation : ℚ) (r : Rng) :
    kill_old_animals maxAge [] = [] ∧
    kill_weak_animals maxDistance [] = [] ∧
    kill_overcrowded maxPop [] = [] ∧
    age_animals [] = [] ∧
    sort_animals [] = [] ∧
    (reproduce_animals [] mutation r).1 = [] ∧
    ∀ l : List Animal, l.length < 2 → (reproduce_animals l mutation r).1.Perm l := by
  refine ⟨rfl, rfl, by simp [kill_overcrowded], rfl, by simp [sort_animals], ?_, ?_⟩
  · simp [reproduce_animals, get_parents, make_children, sort_animals]
  · intro l hl
    match l with
    | [] => simp [reproduce_animals, get_parents, make_children, sort_animals]
    | [a] =>
      simp only [reproduce_animals, get_parents, make_children, List.append_nil,
        sort_animals]
      exact List.mergeSort_perm [a] _
    | a :: b :: rest => simp at hl; omega

/-- Claim C7 witness: the reproduction clause applied to a concrete
one-animal population. -/
theorem c7_witness :
    (reproduce_animals [mkAnimal 3 2 0 1] 0 (constRng 0)).1.Perm [mkAnimal 3 2 0 1] :=
  (c7_empty_population_noop 0 0 0 0 (constRng 0)).2.2.2.2.2.2
    [mkAnimal 3 2 0 1] (by simp)

/-- Claim C1 counterexample: with mutationFraction 2 (which is `≥ 1`) and two
parents of denominator 1, the subtract-branch coin flips make `new_child`
store denominator `round(1 * (1 - 2)) = -1 < 1` — nothing clamps it — and
`reproduce_animals` adds that child to the population. -/
theorem c1_counterexample :
    (new_child (mkAnimal 1 1 0 (fitness 1)) (mkAnimal 1 1 0 (fitness 1)) 2
      (constRng 0)).1.denominator = -1 ∧
    (new_child (mkAnimal 1 1 0 (fitness 1)) (mkAnimal 1 1 0 (fitness 1)) 2
        (constRng 0)).1 ∈
      (reproduce_animals [mkAnimal 1 1 0 (fitness 1), mkAnimal 1 1 0 (fitness 1)] 2
        (constRng 0)).1 := by
  constructor
  · norm_num [mkAnimal, new_child, animal_init, truthy, randint, constRng, pyRound]
  · simp [reproduce_animals, sort_animals, get_parents, make_children,
      List.mem_mergeSort]

/-- Claim C1 (amended): for `0 ≤ mutationFraction ≤ 1` and parents whose
numerators and denominators are at least 1, every child of `new_child` has
numerator and denominator at least 1 — but not because of clamping: a
perturbed value that rounds to 0 is falsy for `Animal.__init__` and is
replaced by a random draw from `[1, MAX_INT]`.  (For mutationFraction above 1
a negative value survives, as the counterexample shows.) -/
theorem c1_child_components_at_least_one (father mother : Animal) (mutation : ℚ)
    (r : Rng) (hfn : 1 ≤ father.numerator) (hmn : 1 ≤ mother.numerator)
    (hfd : 1 ≤ father.denominator) (hmd : 1 ≤ mother.denominator)
    (hm0 : 0 ≤ mutation) (hm1 : mutation ≤ 1) :
    1 ≤ (new_child father mother mutation r).1.numerator ∧
    1 ≤ (new_child father mother mutation r).1.denominator := by
  have hfn' : (1 : ℚ) ≤ (father.numerator : ℚ) := by exact_mod_cast hfn
  have hmn' : (1 : ℚ) ≤ (mother.numerator : ℚ) := by exact_mod_cast hmn
  have hfd' : (1 : ℚ) ≤ (father.denominator : ℚ) := by exact_mod_cast hfd
  have hmd' : (1 : ℚ) ≤ (mother.denominator : ℚ) := by exact_mod_cast hmd
  have hnum : 0 ≤ ((father.numerator : ℚ) + (mother.numerator : ℚ)) / 2 := by linarith
  have hden : 0 ≤ ((father.denominator : ℚ) + (mother.denominator : ℚ)) / 2 := by
    linarith
  have hplus : 0 ≤ 1 + mutation := by linarith
  have hminus : 0 ≤ 1 - mutation := by linarith
  unfold new_child
  refine ⟨animal_init_numerator_bounds _ _ _ ?_, animal_init_denominator_bounds _ _ _ ?_⟩
  · apply pyRound_nonneg
    split_ifs <;> exact mul_nonneg hnum (by assumption)
  · apply pyRound_nonneg
    split_ifs <;> exact mul_nonneg hden (by assumption)

/-- Claim C1 witness: the amended theorem applied to concrete parents 3/2 and
5/4 with mutation 1/2. -/
theorem c1_witness :
    1 ≤ (new_child (mkAnimal 3 2 0 (fitness (3/2))) (mkAnimal 5 4 0 (fitness (5/4)))
      (1/2) (constRng 0)).1.numerator ∧
    1 ≤ (new_child (mkAnimal 3 2 0 (fitness (3/2))) (mkAnimal 5 4 0 (fitness (5/4)))
      (1/2) (constRng 0)).1.denominator :=
  c1_child_components_at_least_one (mkAnimal 3 2 0 (fitness (3/2)))
    (mkAnimal 5 4 0 (fitness (5/4))) (1/2) (constRng 0) (by norm_num [mkAnimal])
    (by norm_num [mkAnimal]) (by norm_num [mkAnimal]) (by norm_num [mkAnimal])
    (by norm_num) (by norm_num)

/-- Claim C2 counterexample: parents with numerators 1 and 2, mutation 2/5,
both coins on the `(1 + m)` branch.  The code perturbs the raw average 3/2 and
rounds once: `round(3/2 * 7/5) = round(2.1) = 2`.  The claim's formula rounds
the average first: `round(round(3/2) * 7/5) = round(2.8) = 3`; its minus
variant gives `round(2 * 3/5) = 1`.  The code's child numerator 2 is neither. -/
theorem c2_counterexample :
    (new_child (mkAnimal 1 1 0 (fitness 1)) (mkAnimal 2 1 0 (fitness 2)) (2/5)
      (constRng 1)).1.numerator = 2 ∧
    specChildNumerator 1 2 (2/5) true = 3 ∧
    specChildNumerator 1 2 (2/5) false = 1 := by
  refine ⟨?_, ?_, ?_⟩ <;>
    norm_num [mkAnimal, new_child, animal_init, truthy, randint, constRng, pyRound,
      specChildNumerator]

/-- When both constructor arguments are nonzero integers they are stored
verbatim. -/
theorem animal_init_some_some (v w : ℤ) (r : Rng) (hv : v ≠ 0) (hw : w ≠ 0) :
    (animal_init (some v) (some w) r).1.numerator = v ∧
    (animal_init (some v) (some w) r).1.denominator = w := by
  rw [animal_init_numerator, animal_init_denominator]
  simp [truthy, hv, hw]

/-- Claim C2 (amended): the child's numerator is `round(a * (1 + m))` or
`round(a * (1 - m))` where `a` is the parents' *unrounded* numerator average
`(father.numerator + mother.numerator) / 2` taken with true division — there
is no intermediate rounding of the average — and likewise for the denominator
with its own independent coin; this holds provided the candidate rounded
values are nonzero (a zero would be replaced by a random draw inside the
constructor). -/
theorem c2_child_derivation (father mother : Animal) (mutation : ℚ) (r : Rng)
    (hn1 : pyRound ((((father.numerator : ℚ) + (mother.numerator : ℚ)) / 2) *
      (1 + mutation)) ≠ 0)
    (hn2 : pyRound ((((father.numerator : ℚ) + (mother.numerator : ℚ)) / 2) *
      (1 - mutation)) ≠ 0)
    (hd1 : pyRound ((((father.denominator : ℚ) + (mother.denominator : ℚ)) / 2) *
      (1 + mutation)) ≠ 0)
    (hd2 : pyRound ((((father.denominator : ℚ) + (mother.denominator : ℚ)) / 2) *
      (1 - mutation)) ≠ 0) :
    ((new_child father mother mutation r).1.numerator =
        pyRound ((((father.numerator : ℚ) + (mother.numerator : ℚ)) / 2) *
          (1 + mutation)) ∨
      (new_child father mother mutation r).1.numerator =
        pyRound ((((father.numerator : ℚ) + (mother.numerator : ℚ)) / 2) *
          (1 - mutation))) ∧
    ((new_child father mother mutation r).1.denominator =
        pyRound ((((father.denominator : ℚ) + (mother.denominator : ℚ)) / 2) *
          (1 + mutation)) ∨
      (new_child father mother mutation r).1.denominator =
        pyRound ((((father.denominator : ℚ) + (mother.denominator : ℚ)) / 2) *
          (1 - mutation))) := by
  dsimp only [new_child]
  rcases eq_or_ne (randint 0 1 r).1 0 with hc1 | hc1 <;>
    rcases eq_or_ne (randint 0 1 (randint 0 1 r).2).1 0 with hc2 | hc2
  · rw [if_neg (by simp [hc1]), if_neg (by simp [hc2])]
    exact ⟨Or.inr (animal_init_some_some _ _ _ hn2 hd2).1,
      Or.inr (animal_init_some_some _ _ _ hn2 hd2).2⟩
  · rw [if_neg (by simp [hc1]), if_pos hc2]
    exact ⟨Or.inr (animal_init_some_some _ _ _ hn2 hd1).1,
      Or.inl (animal_init_some_some _ _ _ hn2 hd1).2⟩
  · rw [if_pos hc1, if_neg (by simp [hc2])]
    exact ⟨Or.inl (animal_init_some_some _ _ _ hn1 hd2).1,
      Or.inr (animal_init_some_some _ _ _ hn1 hd2).2⟩
  · rw [if_pos hc1, if_pos hc2]
    exact ⟨Or.inl (animal_init_some_some _ _ _ hn1 hd1).1,
      Or.inl (animal_init_some_some _ _ _ hn1 hd1).2⟩

/-- Claim C2 witness: the amended derivation applied to concrete parents 4/3
and 6/5 with mutation 1/10, where all four candidate rounded values are
nonzero. -/
theorem c2_witness :
    ((new_child (mkAnimal 4 3 0 (fitness (4/3))) (mkAnimal 6 5 0 (fitness (6/5)))
        (1/10) (constRng 0)).1.numerator =
      pyRound (((((mkAnimal 4 3 0 (fitness (4/3))).numerator : ℚ) +
        ((mkAnimal 6 5 0 (fitness (6/5))).numerator : ℚ)) / 2) * (1 + 1/10)) ∨
      (new_child (mkAnimal 4 3 0 (fitness (4/3))) (mkAnimal 6 5 0 (fitness (6/5)))
        (1/10) (constRng 0)).1.numerator =
      pyRound (((((mkAnimal 4 3 0 (fitness (4/3))).numerator : ℚ) +
        ((mkAnimal 6 5 0 (fitness (6/5))).numerator : ℚ)) / 2) * (1 - 1/10))) ∧
    ((new_child (mkAnimal 4 3 0 (fitness (4/3))) (mkAnimal 6 5 0 (fitness (6/5)))
        (1/10) (constRng 0)).1.denominator =
      pyRound (((((mkAnimal 4 3 0 (fitness (4/3))).denominator : ℚ) +
        ((mkAnimal 6 5 0 (fitness (6/5))).denominator : ℚ)) / 2) * (1 + 1/10)) ∨
      (new_child (mkAnimal 4 3 0 (fitness (4/3))) (mkAnimal 6 5 0 (fitness (6/5)))
        (1/10) (constRng 0)).1.denominator =
      pyRound (((((mkAnimal 4 3 0 (fitness (4/3))).denominator : ℚ) +
        ((mkAnimal 6 5 0 (fitness (6/5))).denominator : ℚ)) / 2) * (1 - 1/10))) :=
  c2_child_derivation (mkAnimal 4 3 0 (fitness (4/3))) (mkAnimal 6 5 0 (fitness (6/5)))
    (1/10) (constRng 0)
    (by norm_num [mkAnimal, pyRound]) (by norm_num [mkAnimal, pyRound])
    (by norm_num [mkAnimal, pyRound]) (by norm_num [mkAnimal, pyRound])

/-- `get_parents` yields exactly `⌊n/2⌋` pairs from a list of length `n`. -/
theorem get_parents_length : ∀ l : List Animal, (get_parents l).length = l.length / 2
  | [] => rfl
  | [_] => by simp [get_parents]
  | _ :: _ :: rest => by
    have ih := get_parents_length rest
    simp only [get_parents, List.length_cons]
    omega

/-- `make_children` produces exactly one child per parent pair. -/
theorem make_children_length : ∀ (ps : List (Animal × Animal)) (mutation : ℚ) (r : Rng),
    (make_children ps mutation r).1.length = ps.length
  | [], _, _ => rfl
  | p :: ps, mutation, r => by
    have ih := make_children_length ps mutation (new_child p.1 p.2 mutation r).2
    simp only [make_children, List.length_cons]
    omega

/-- The `k`-th parent pair consists of the list elements at positions `2k`
and `2k + 1`: pairing is by adjacent positions. -/
theorem get_parents_getElem : ∀ (l : List Animal) (k : ℕ) (h : 2 * k + 1 < l.length)
    (hk : k < (get_parents l).length) (h2 : 2 * k < l.length),
    (get_parents l).get ⟨k, hk⟩ = (l.get ⟨2 * k, h2⟩, l.get ⟨2 * k + 1, h⟩)
  | [], k, h, hk, h2 => by simp at h
  | [a], k, h, hk, h2 => by
    have : 2 * k + 1 < 1 := by simpa using h
    omega
  | a :: b :: rest, 0, h, hk, h2 => rfl
  | a :: b :: rest, k + 1, h, hk, h2 => by
    have h' : 2 * k + 1 < rest.length := by
      have := h; simp [List.length_cons] at this; omega
    have h2' : 2 * k < rest.length := by omega
    have hk' : k < (get_parents rest).length := by
      have := hk; simp [get_parents, List.length_cons] at this; omega
    have ih := get_parents_getElem rest k h' hk' h2'
    have e1 : 2 * (k + 1) = 2 * k + 1 + 1 := by ring
    have e2 : 2 * (k + 1) + 1 = 2 * k + 1 + 1 + 1 := by ring
    simp only [List.get_eq_getElem] at ih ⊢
    simp only [get_parents, List.getElem_cons_succ, e1, e2]
    exact ih

/-- Claim C3: on a population of size `n` sorted ascending by fitness,
`reproduce_animals` adds exactly `⌊n/2⌋` children (so an odd final animal
contributes none); the result is, up to the final re-sort, the original
animals plus the children — in particular all `n` originals are still
present — and the `k`-th pair of parents is the adjacent pair at positions
`(2k, 2k+1)`. -/
theorem c3_reproduce_pairs_adjacent (l : List Animal) (mutation : ℚ) (r : Rng)
    (hsorted : l.Pairwise (fun a b => a.fitness ≤ b.fitness)) :
    (reproduce_animals l mutation r).1.length = l.length + l.length / 2 ∧
    (reproduce_animals l mutation r).1.Perm
      (l ++ (make_children (get_parents l) mutation r).1) ∧
    (∀ x ∈ l, x ∈ (reproduce_animals l mutation r).1) ∧
    (∀ (k : ℕ) (h : 2 * k + 1 < l.length) (hk : k < (get_parents l).length)
        (h2 : 2 * k < l.length),
      (get_parents l).get ⟨k, hk⟩ = (l.get ⟨2 * k, h2⟩, l.get ⟨2 * k + 1, h⟩)) := by
  refine ⟨?_, ?_, ?_, fun k h hk h2 => get_parents_getElem l k h hk h2⟩
  · simp [reproduce_animals, sort_animals, make_children_length, get_parents_length]
  · exact List.mergeSort_perm _ _
  · intro x hx
    simp only [reproduce_animals, sort_animals, List.mem_mergeSort, List.mem_append]
    exact Or.inl hx

/-- Claim C3 witness: a concrete sorted population of five animals yields
exactly two children (size 5 + 2 = 7), every original remains present, and
the second parent pair is the one at positions (2, 3). -/
theorem c3_witness :
    (reproduce_animals [mkAnimal 3 1 0 1, mkAnimal 5 2 0 2, mkAnimal 7 2 0 3,
        mkAnimal 9 2 0 4, mkAnimal 11 2 0 5] 0 (constRng 0)).1.length = 7 ∧
    mkAnimal 11 2 0 5 ∈ (reproduce_animals [mkAnimal 3 1 0 1, mkAnimal 5 2 0 2,
        mkAnimal 7 2 0 3, mkAnimal 9 2 0 4, mkAnimal 11 2 0 5] 0 (constRng 0)).1 ∧
    (get_parents [mkAnimal 3 1 0 1, mkAnimal 5 2 0 2, mkAnimal 7 2 0 3,
        mkAnimal 9 2 0 4, mkAnimal 11 2 0 5]).get ⟨1, by simp [get_parents]⟩ =
      (mkAnimal 7 2 0 3, mkAnimal 9 2 0 4) := by
  have h := c3_reproduce_pairs_adjacent [mkAnimal 3 1 0 1, mkAnimal 5 2 0 2,
    mkAnimal 7 2 0 3, mkAnimal 9 2 0 4, mkAnimal 11 2 0 5] 0 (constRng 0)
    (by norm_num [List.pairwise_cons, mkAnimal])
  refine ⟨by simpa using h.1, h.2.2.1 (mkAnimal 11 2 0 5) (by simp), ?_⟩
  have h4 := h.2.2.2 1 (by simp) (by simp [get_parents]) (by simp)
  simpa using h4

/-- Claim C6: on a population sorted ascending by fitness,
`kill_overcrowded maxPop` is the identity when the size is at most `maxPop`;
when the size exceeds `maxPop` it keeps exactly the first `⌊size/2⌋` animals
(the fittest ones: each kept animal's fitness is at most every discarded
animal's fitness) and the resulting size is `⌊size/2⌋`. -/
theorem c6_kill_overcrowded_halves (maxPop : ℕ) (l : List Animal)
    (hsorted : l.Pairwise (fun a b => a.fitness ≤ b.fitness)) :
    (l.length ≤ maxPop → kill_overcrowded maxPop l = l) ∧
    (maxPop < l.length →
      kill_overcrowded maxPop l = l.take (l.length / 2) ∧
      (kill_overcrowded maxPop l).length = l.length / 2 ∧
      ∀ x ∈ l.take (l.length / 2), ∀ y ∈ l.drop (l.length / 2),
        x.fitness ≤ y.fitness) := by
  constructor
  · intro hle
    have hc : ¬ l.length > maxPop := by omega
    simp [kill_overcrowded, hc]
  · intro hgt
    have hc : l.length > maxPop := hgt
    refine ⟨by simp [kill_overcrowded, hc], ?_, ?_⟩
    · simp only [kill_overcrowded, if_pos hc, List.length_take]
      omega
    · intro x hx y hy
      have hsplit := hsorted
      rw [← List.take_append_drop (l.length / 2) l] at hsplit
      exact (List.pairwise_append.mp hsplit).2.2 x hx y hy

/-- Claim C6 witness: a concrete sorted population of three animals with cap
2 is truncated to its fittest single animal. -/
theorem c6_witness :
    kill_overcrowded 2 [mkAnimal 3 1 0 1, mkAnimal 5 2 0 2, mkAnimal 7 2 0 3] =
      [mkAnimal 3 1 0 1, mkAnimal 5 2 0 2, mkAnimal 7 2 0 3].take 1 ∧
    (kill_overcrowded 2 [mkAnimal 3 1 0 1, mkAnimal 5 2 0 2, mkAnimal 7 2 0 3]).length
      = 1 := by
  have h := (c6_kill_overcrowded_halves 2
    [mkAnimal 3 1 0 1, mkAnimal 5 2 0 2, mkAnimal 7 2 0 3]
    (by norm_num [List.pairwise_cons, mkAnimal])).2 (by simp)
  exact ⟨by simpa using h.1, by simpa using h.2.1⟩

/-- The while loop started at counter `generation` performs exactly
`max_generations - generation` steps. -/
theorem mainLoop_eq_iterate (config : Config) : ∀ (n generation : ℕ)
    (w : List Animal × Rng), config.max_generations - generation = n →
    mainLoop config generation w = (stepGeneration config)^[n] w := by
  intro n
  induction n with
  | zero =>
    intro g w h
    rw [mainLoop, if_neg (by omega)]
    rfl
  | succ n ih =>
    intro g w h
    have hg : g < config.max_generations := by omega
    rw [mainLoop, if_pos hg, ih (g + 1) (stepGeneration config w) (by omega)]
    exact (Function.iterate_succ_apply _ _ _).symm

/-- Claim C8: the driver executes exactly `max_generations` generation steps
for every starting state (a zero-size population included: the loop test
mentions only the counter, so it never exits early), and each step applies,
in order, kill_old_animals, kill_weak_animals, reproduce_animals,
kill_overcrowded, and age_animals. -/
theorem c8_driver_exact_generations (config : Config) (w : List Animal × Rng) :
    mainLoop config 0 w = (stepGeneration config)^[config.max_generations] w ∧
    stepGeneration config w =
      (age_animals (kill_overcrowded config.max_population
          (reproduce_animals
            (kill_weak_animals config.max_distance_from_pi
              (kill_old_animals config.max_age w.1))
            config.mutation_percentage w.2).1),
        (reproduce_animals
          (kill_weak_animals config.max_distance_from_pi
            (kill_old_animals config.max_age w.1))
          config.mutation_percentage w.2).2) :=
  ⟨mainLoop_eq_iterate config config.max_generations 0 w (by omega), rfl⟩

/-- Claim C10: a constructor argument that is 0 or absent is replaced by a
random draw from `[1, MAX_INT]` (an explicit 0 is indistinguishable from
an absent argument), a positive argument is stored verbatim, and hence for
every call whose denominator argument is 0, absent, or positive, the stored
denominator is nonzero, so the fitness computation and `get_pi` never divide
by zero. -/
theorem c10_constructor_never_zero_denominator (num? den? : Option ℤ) (r : Rng) :
    ((num? = none ∨ num? = some 0) →
      1 ≤ (animal_init num? den? r).1.numerator ∧
        (animal_init num? den? r).1.numerator ≤ MAX_INT) ∧
    ((den? = none ∨ den? = some 0) →
      1 ≤ (animal_init num? den? r).1.denominator ∧
        (animal_init num? den? r).1.denominator ≤ MAX_INT) ∧
    (∀ d : ℤ, den? = some d → 0 < d → (animal_init num? den? r).1.denominator = d) ∧
    ((den? = none ∨ den? = some 0 ∨ ∃ d : ℤ, 0 < d ∧ den? = some d) →
      (animal_init num? den? r).1.denominator ≠ 0) ∧
    animal_init (some 0) den? r = animal_init none den? r := by
  have hmax : (1 : ℤ) ≤ MAX_INT := by norm_num [MAX_INT]
  have hnum : (num? = none ∨ num? = some 0) →
      1 ≤ (animal_init num? den? r).1.numerator ∧
        (animal_init num? den? r).1.numerator ≤ MAX_INT := by
    rintro (rfl | rfl) <;>
      · rw [animal_init_numerator]
        simp only [truthy, bne_self_eq_false, Bool.false_eq_true, if_false]
        exact randint_le 1 MAX_INT r hmax
  have hden : (den? = none ∨ den? = some 0) →
      1 ≤ (animal_init num? den? r).1.denominator ∧
        (animal_init num? den? r).1.denominator ≤ MAX_INT := by
    rintro (rfl | rfl) <;>
      · rw [animal_init_denominator]
        simp only [truthy, bne_self_eq_false, Bool.false_eq_true, if_false]
        exact randint_le 1 MAX_INT _ hmax
  have hpos : ∀ d : ℤ, den? = some d → 0 < d →
      (animal_init num? den? r).1.denominator = d := by
    rintro d rfl hd
    rw [animal_init_denominator]
    simp [truthy, show d ≠ 0 by omega]
  refine ⟨hnum, hden, hpos, ?_, rfl⟩
  rintro (h | h | ⟨d, hd, h⟩)
  · have := hden (Or.inl h)
    omega
  · have := hden (Or.inr h)
    omega
  · have := hpos d h hd
    omega

/-- Claim C10 witness: a constructor call with numerator argument 0 and
absent denominator stores a random numerator in `[1, MAX_INT]` and a nonzero
denominator. -/
theorem c10_witness :
    1 ≤ (animal_init (some 0) none (constRng 5)).1.numerator ∧
    (animal_init (some 0) none (constRng 5)).1.numerator ≤ MAX_INT ∧
    (animal_init (some 0) none (constRng 5)).1.denominator ≠ 0 :=
  ⟨((c10_constructor_never_zero_denominator (some 0) none (constRng 5)).1
      (Or.inr rfl)).1,
    ((c10_constructor_never_zero_denominator (some 0) none (constRng 5)).1
      (Or.inr rfl)).2,
    (c10_constructor_never_zero_denominator (some 0) none (constRng 5)).2.2.2.1
      (Or.inl rfl)⟩

/-- Claim C4 witness: a concrete animal of age 1 survives threshold 5. -/
theorem c4_witness : mkAnimal 3 2 1 1 ∈ kill_old_animals 5 [mkAnimal 3 2 1 1] :=
  (c4_kill_old_exact 5 [mkAnimal 3 2 1 1] (mkAnimal 3 2 1 1)).mpr
    ⟨by simp, by norm_num [mkAnimal]⟩

/-- Claim C5 witness: a concrete animal of fitness 1/2 survives threshold 1. -/
theorem c5_witness : mkAnimal 3 2 0 (1/2) ∈ kill_weak_animals 1 [mkAnimal 3 2 0 (1/2)] :=
  (c5_kill_weak_exact 1 [mkAnimal 3 2 0 (1/2)] (mkAnimal 3 2 0 (1/2))).mpr
    ⟨by simp, by norm_num [mkAnimal]⟩
